import Mathlib

/-!
# Verification of the Comparison-RAG retrieval-and-synthesis core

Shallow embedding of the repository's retrieval pipeline:

* `src/src/rag/query_analyzer.py` — `QueryAnalyzer.analyze` and
  `QueryAnalyzer._fallback_analysis`;
* `src/src/rag/retriever.py` — `SmartRetriever.retrieve`,
  `SmartRetriever._ensure_diversity`, `SmartRetriever.retrieve_for_comparison`;
* `src/src/rag/synthesizer.py` — `ComparisonSynthesizer.compare`,
  `_generate_comparison`, `_generate_answer`, `_extract_comparison_table`.

External collaborators (the vector index backend and the generation service)
are passed in as explicit function / outcome parameters; distances and
relevance scores are rationals.
-/

namespace CompareRAG

/-- Python's substring test `needle in hay` on lists of characters:
true iff `needle` is a prefix of some suffix of `hay`. -/
def subList (needle : List Char) : List Char → Bool
  | [] => needle.isPrefixOf ([] : List Char)
  | c :: t => needle.isPrefixOf (c :: t) || subList needle t

/-- Python's `needle in hay` on strings. -/
def strContains (hay needle : String) : Bool :=
  subList needle.toList hay.toList

/-- Python's `str.lower`, characterwise (ASCII case folding suffices for the
fixed keyword sets). -/
def strLower (s : String) : String :=
  ⟨s.data.map Char.toLower⟩

/-! ## Query analyzer (`src/src/rag/query_analyzer.py`) -/

/-- `QueryAnalysis` dataclass. -/
structure QueryAnalysis where
  original_query : String
  query_type : String
  aspects : List String
  entities : List String
  is_comparative : Bool
  expanded_query : String
deriving Repr, DecidableEq

/-- The fixed comparative-keyword list of `_fallback_analysis`. -/
def comparative_keywords : List String :=
  ["compare", "versus", "vs", "which", "better", "best",
   "difference", "between", "or"]

/-- The fixed aspect taxonomy of `_fallback_analysis`: aspect tag with its
keyword list, in the source's dict order. -/
def aspect_keywords : List (String × List String) :=
  [("price", ["price", "cost", "expensive", "cheap", "budget"]),
   ("camera", ["camera", "photo", "picture", "video"]),
   ("battery", ["battery", "charge", "power"]),
   ("display", ["display", "screen", "resolution"]),
   ("performance", ["performance", "speed", "fast", "processor"]),
   ("design", ["design", "look", "style", "build"])]

/-- `QueryAnalyzer._fallback_analysis`: deterministic keyword heuristic. -/
def fallback_analysis (query : String) : QueryAnalysis :=
  let query_lower := strLower query
  let is_comparative := comparative_keywords.any (fun kw => strContains query_lower kw)
  let query_type :=
    if is_comparative then "comparison"
    else if ["tell me", "what is", "how"].any (fun w => strContains query_lower w) then
      "specific"
    else "general"
  let aspects :=
    (aspect_keywords.filter (fun p => p.2.any (fun kw => strContains query_lower kw))).map
      Prod.fst
  { original_query := query
    query_type := query_type
    aspects := aspects
    entities := []
    is_comparative := is_comparative
    expanded_query := query }

/-- The fields of the JSON object the generation-backed classifier may return
(`data.get(...)` in `analyze`): each of the five expected keys may be absent. -/
structure AnalysisJson where
  query_type : Option String
  aspects : Option (List String)
  entities : Option (List String)
  is_comparative : Option Bool
  expanded_query : Option String
deriving Repr, DecidableEq

/-- `QueryAnalyzer.analyze`. The generation call plus `json.loads` is embedded
as its outcome: `.error e` for any exception on that path (generation failure,
parse failure), `.ok data` for a parsed JSON object. On error the heuristic
fallback is used; on success missing keys are filled with `data.get` defaults. -/
def analyze (query : String) (llm : Except String AnalysisJson) : QueryAnalysis :=
  match llm with
  | .error _ => fallback_analysis query
  | .ok data =>
    { original_query := query
      query_type := data.query_type.getD "general"
      aspects := data.aspects.getD []
      entities := data.entities.getD []
      is_comparative := data.is_comparative.getD false
      expanded_query := data.expanded_query.getD query }

/-! ## Retriever (`src/src/rag/retriever.py`) -/

/-- A stored entry's metadata dict, as written by `VectorStore.add_product`:
`url`, `title` and `brand` are always written by the store; the remaining
fields are plain dict keys that a caller may find absent, hence `Option`
(dict access `metadata[key]` on a missing key is an exception, modelled by
`Option.none` flowing into the fallible table extraction). -/
structure Metadata where
  url : String
  title : String
  brand : String
  price : Option String
  currency : Option String
  rating : Option String
deriving Repr, DecidableEq

/-- One aligned row of the dict returned by `VectorStore.query`
(`ids` / `documents` / `metadatas` / `distances` at a common index). -/
structure RawEntry where
  raw_id : String
  document : String
  metadata : Metadata
  distance : ℚ
deriving Repr, DecidableEq

/-- The vector index backend, `self.vector_store.query`:
arguments are the query text, `n_results`, and the optional one-pair
`filter_metadata` dict (the retriever only ever passes `{"url": url}`). -/
def StoreFn : Type :=
  String → ℕ → Option (String × String) → List RawEntry

/-- `RetrievalResult` dataclass. -/
structure RetrievalResult where
  product_title : String
  brand : String
  content : String
  metadata : Metadata
  relevance_score : ℚ
deriving Repr, DecidableEq

/-- `RetrievalContext` dataclass. -/
structure RetrievalContext where
  query : String
  query_analysis : QueryAnalysis
  results : List RetrievalResult
  total_retrieved : ℕ
deriving Repr, DecidableEq

/-- `RetrievalContext.get_all_products`. -/
def RetrievalContext.get_all_products (c : RetrievalContext) : List String :=
  c.results.map fun r => r.product_title

/-- Step 3 of `SmartRetriever.retrieve`: convert each raw candidate's distance
to `relevance = max(0.0, 1.0 - distance)`, drop it when `relevance <
min_relevance`, and otherwise build the `RetrievalResult` from the entry's
document and metadata. -/
def processResults (min_relevance : ℚ) : List RawEntry → List RetrievalResult
  | [] => []
  | e :: es =>
    let relevance := max 0 (1 - e.distance)
    if relevance < min_relevance then processResults min_relevance es
    else
      { product_title := e.metadata.title
        brand := e.metadata.brand
        content := e.document
        metadata := e.metadata
        relevance_score := relevance } :: processResults min_relevance es

/-- The loop body of `SmartRetriever._ensure_diversity`, with the running
`seen_products` set (as a list of titles) and `diverse_results` accumulator. -/
def ensureDiversityAux (max_per_product : ℕ) :
    List String → List RetrievalResult → List RetrievalResult → List RetrievalResult
  | _, diverse, [] => diverse
  | seen, diverse, r :: rs =>
    if r.product_title ∈ seen then
      if (diverse.filter fun x => x.product_title == r.product_title).length <
          max_per_product then
        ensureDiversityAux max_per_product seen (diverse ++ [r]) rs
      else
        ensureDiversityAux max_per_product seen diverse rs
    else
      ensureDiversityAux max_per_product (r.product_title :: seen) (diverse ++ [r]) rs

/-- `SmartRetriever._ensure_diversity` (default `max_per_product = 1`). -/
def ensure_diversity (results : List RetrievalResult) (max_per_product : ℕ := 1) :
    List RetrievalResult :=
  ensureDiversityAux max_per_product [] [] results

/-- `SmartRetriever.retrieve`. The analyzer collaborator
(`self.query_analyzer.analyze`) and the index backend are explicit
parameters; defaults mirror `max_results=10`, `min_relevance=0.0`. -/
def retrieve (analyzer : String → QueryAnalysis) (store : StoreFn)
    (query : String) (max_results : ℕ := 10) (min_relevance : ℚ := 0) :
    RetrievalContext :=
  let analysis := analyzer query
  let raw_results := store analysis.expanded_query max_results none
  let results := processResults min_relevance raw_results
  let results :=
    if analysis.is_comparative ∧ 0 < results.length then ensure_diversity results 1
    else results
  { query := query
    query_analysis := analysis
    results := results
    total_retrieved := results.length }

/-- The per-URL lookup of `SmartRetriever.retrieve_for_comparison`: query the
store with `n_results=1` and `filter_metadata={"url": url}`; when `raw["ids"]`
is non-empty build a result from row 0 with `relevance_score = 1.0 -
raw["distances"][0]` (note: unclamped), else skip the key. -/
def targetedLookup (store : StoreFn) (query : String) (url : String) :
    Option RetrievalResult :=
  match store query 1 (some ("url", url)) with
  | [] => none
  | e :: _ =>
    some
      { product_title := e.metadata.title
        brand := e.metadata.brand
        content := e.document
        metadata := e.metadata
        relevance_score := 1 - e.distance }

/-- `SmartRetriever.retrieve_for_comparison`. `product_urls = none` is Python's
`None`; the `if product_urls:` truthiness test sends both `None` and `[]` to
the general branch `retrieve(query, max_results=20)`. -/
def retrieve_for_comparison (analyzer : String → QueryAnalysis) (store : StoreFn)
    (query : String) (product_urls : Option (List String)) : RetrievalContext :=
  let urls := product_urls.getD []
  if urls.isEmpty then retrieve analyzer store query 20 0
  else
    let results := urls.filterMap (targetedLookup store query)
    let analysis := analyzer query
    { query := query
      query_analysis := analysis
      results := results
      total_retrieved := results.length }

/-! ## Synthesizer (`src/src/rag/synthesizer.py`) -/

/-- One row of the extracted comparison table:
`{"brand": ..., "price": f"{currency}{price}", "rating": ...}`. -/
structure TableRow where
  brand : String
  price : String
  rating : String
deriving Repr, DecidableEq

/-- The comparison table: a dict mapping product title to its row. -/
abbrev Table : Type :=
  List (String × TableRow)

/-- Python dict assignment `table[k] = v`: replace the value when the key is
present, otherwise append the pair. -/
def dictInsert (d : Table) (k : String) (v : TableRow) : Table :=
  if d.any fun p => p.1 == k then
    d.map fun p => if p.1 == k then (k, v) else p
  else d ++ [(k, v)]


/-- The body of the per-result loop of `_extract_comparison_table`:
`result.metadata["brand"]` always succeeds (the store writes it),
`result.metadata['currency']` and `result.metadata['price']` raise `KeyError`
when absent (`none` here), `metadata.get("rating", "N/A")` defaults. -/
def rowOf (r : RetrievalResult) : Option TableRow :=
  match r.metadata.currency, r.metadata.price with
  | some c, some p =>
    some { brand := r.metadata.brand, price := c ++ p, rating := r.metadata.rating.getD "N/A" }
  | _, _ => none

/-- The `try` loop of `_extract_comparison_table` over `results[:5]`: build the
dict row by row; any raised `KeyError` aborts the whole attempt (the `except`
returns `None`). -/
def buildTable : List RetrievalResult → Table → Option Table
  | [], table => some table
  | r :: rs, table =>
    match rowOf r with
    | none => none
    | some row => buildTable rs (dictInsert table r.product_title row)

/-- `ComparisonSynthesizer._extract_comparison_table` (the generated answer
text is accepted and ignored, exactly as in the source). -/
def extract_comparison_table (answer : String) (context : RetrievalContext) :
    Option Table :=
  if context.results.length < 2 then none
  else buildTable (context.results.take 5) []

/-- `ComparisonResult` dataclass, after `__post_init__` (citations `None`
becomes `[]`). -/
structure ComparisonResult where
  query : String
  answer : String
  products_compared : List String
  comparison_table : Option Table := none
  summary : Option String := none
  citations : List String := []
deriving Repr, DecidableEq

/-- `ComparisonSynthesizer._generate_comparison`: the generation-service call
is embedded as its outcome `gen` (`.ok answer` or `.error` with `str(e)`). -/
def generate_comparison (gen : Except String String) (query : String)
    (context : RetrievalContext) : ComparisonResult :=
  match gen with
  | .ok answer =>
    { query := query
      answer := answer
      products_compared := context.get_all_products
      comparison_table := extract_comparison_table answer context
      citations := context.results.map fun r => r.metadata.url }
  | .error e =>
    { query := query
      answer := "Error generating comparison: " ++ e
      products_compared := context.get_all_products }

/-- `ComparisonSynthesizer._generate_answer`. -/
def generate_answer (gen : Except String String) (query : String)
    (context : RetrievalContext) : ComparisonResult :=
  match gen with
  | .ok answer =>
    { query := query
      answer := answer
      products_compared := context.get_all_products
      citations := context.results.map fun r => r.metadata.url }
  | .error e =>
    { query := query
      answer := "Error generating answer: " ++ e
      products_compared := context.get_all_products }

/-- The branch of `ComparisonSynthesizer.compare` after retrieval: the
zero-result guard, then comparative versus direct-answer synthesis.
`genC` / `genA` are the outcomes the generation service would give on the
comparative / direct prompt of this call. -/
def compareOnContext (genC genA : Except String String) (query : String)
    (context : RetrievalContext) : ComparisonResult :=
  if context.results.isEmpty then
    { query := query
      answer := "I couldn't find any products to compare. Please add products first."
      products_compared := []
      summary := some "No products found." }
  else if context.query_analysis.is_comparative then
    generate_comparison genC query context
  else
    generate_answer genA query context

/-- `ComparisonSynthesizer.compare`: retrieve via `retrieve_for_comparison`
when `product_urls` is truthy, else `retrieve(query, max_results=10)`, then
synthesize. -/
def compare (analyzer : String → QueryAnalysis) (store : StoreFn)
    (genC genA : Except String String) (query : String)
    (product_urls : Option (List String)) : ComparisonResult :=
  let context :=
    if (product_urls.getD []).isEmpty then retrieve analyzer store query 10 0
    else retrieve_for_comparison analyzer store query product_urls
  compareOnContext genC genA query context

/-! ## Diversity filtering: spec-side description and helper lemmas -/

/-- Spec-side description of diversity filtering at the default cap (stated
from the spec's words, to be compared with the source's `_ensure_diversity`):
walk the list, keep an entry iff its title was not seen before. -/
def specFirstPerTitleFrom (seen : List String) : List RetrievalResult → List RetrievalResult
  | [] => []
  | r :: rs =>
    if r.product_title ∈ seen then specFirstPerTitleFrom seen rs
    else r :: specFirstPerTitleFrom (r.product_title :: seen) rs

/-- Spec-side description: keep exactly the first entry for each title. -/
def specFirstPerTitle (l : List RetrievalResult) : List RetrievalResult :=
  specFirstPerTitleFrom [] l

/-- Occurrences of a title in a result list (the `len([...])` test of
`_ensure_diversity`). -/
def countTitle (l : List RetrievalResult) (t : String) : ℕ :=
  (l.filter fun x => x.product_title == t).length

lemma countTitle_nil (t : String) : countTitle [] t = 0 := rfl

lemma countTitle_cons (r : RetrievalResult) (rs : List RetrievalResult) (t : String) :
    countTitle (r :: rs) t =
      (if r.product_title == t then 1 else 0) + countTitle rs t := by
  by_cases h : r.product_title == t <;> simp [countTitle, List.filter_cons, h, Nat.add_comm]

lemma countTitle_append (l₁ l₂ : List RetrievalResult) (t : String) :
    countTitle (l₁ ++ l₂) t = countTitle l₁ t + countTitle l₂ t := by
  simp [countTitle, List.filter_append]

/-- At the default cap, the accumulator run of `_ensure_diversity` agrees with
the spec-side first-per-title walk, provided every seen title has a witness in
the accumulator. -/
lemma ensureDiversityAux_one_eq (l : List RetrievalResult) :
    ∀ (seen : List String) (diverse : List RetrievalResult),
      (∀ t ∈ seen, ∃ x ∈ diverse, x.product_title = t) →
      ensureDiversityAux 1 seen diverse l = diverse ++ specFirstPerTitleFrom seen l := by
  induction l with
  | nil =>
    intro seen diverse _
    simp [ensureDiversityAux, specFirstPerTitleFrom]
  | cons r rs ih =>
    intro seen diverse hinv
    by_cases hmem : r.product_title ∈ seen
    · obtain ⟨x, hx, hxt⟩ := hinv _ hmem
      have hxf : x ∈ diverse.filter fun y => y.product_title == r.product_title :=
        List.mem_filter.mpr ⟨hx, by simp [hxt]⟩
      have hlen : ¬ (diverse.filter fun y => y.product_title == r.product_title).length < 1 :=
        Nat.not_lt.mpr (List.length_pos_of_mem hxf)
      rw [show ensureDiversityAux 1 seen diverse (r :: rs) =
            ensureDiversityAux 1 seen diverse rs by
          simp [ensureDiversityAux, hmem, hlen]]
      rw [ih seen diverse hinv]
      simp [specFirstPerTitleFrom, hmem]
    · rw [show ensureDiversityAux 1 seen diverse (r :: rs) =
            ensureDiversityAux 1 (r.product_title :: seen) (diverse ++ [r]) rs by
          simp [ensureDiversityAux, hmem]]
      rw [ih (r.product_title :: seen) (diverse ++ [r]) ?_]
      · simp [specFirstPerTitleFrom, hmem]
      · intro t ht
        rcases List.mem_cons.mp ht with rfl | ht
        · exact ⟨r, List.mem_append_right _ (List.mem_singleton_self r), rfl⟩
        · obtain ⟨x, hx, hxt⟩ := hinv _ ht
          exact ⟨x, List.mem_append_left _ hx, hxt⟩

/-- `_ensure_diversity` at the default cap is exactly the spec-side
first-per-title walk. -/
lemma ensure_diversity_one_eq_spec (l : List RetrievalResult) :
    ensure_diversity l 1 = specFirstPerTitle l := by
  simpa [ensure_diversity, specFirstPerTitle] using
    ensureDiversityAux_one_eq l [] [] (by simp)

lemma specFirstPerTitleFrom_not_seen (l : List RetrievalResult) :
    ∀ (seen : List String), ∀ r ∈ specFirstPerTitleFrom seen l, r.product_title ∉ seen := by
  induction l with
  | nil => intro seen r hr; simp [specFirstPerTitleFrom] at hr
  | cons x xs ih =>
    intro seen r hr
    by_cases hmem : x.product_title ∈ seen
    · exact ih seen r (by simpa [specFirstPerTitleFrom, hmem] using hr)
    · rw [show specFirstPerTitleFrom seen (x :: xs) =
            x :: specFirstPerTitleFrom (x.product_title :: seen) xs by
          simp [specFirstPerTitleFrom, hmem]] at hr
      rcases List.mem_cons.mp hr with rfl | hr
      · exact hmem
      · have := ih _ r hr
        exact fun hc => this (List.mem_cons_of_mem _ hc)

lemma specFirstPerTitleFrom_nodup (l : List RetrievalResult) :
    ∀ seen : List String,
      ((specFirstPerTitleFrom seen l).map fun r => r.product_title).Nodup := by
  induction l with
  | nil => intro seen; simp [specFirstPerTitleFrom]
  | cons x xs ih =>
    intro seen
    by_cases hmem : x.product_title ∈ seen
    · simpa [specFirstPerTitleFrom, hmem] using ih seen
    · rw [show specFirstPerTitleFrom seen (x :: xs) =
            x :: specFirstPerTitleFrom (x.product_title :: seen) xs by
          simp [specFirstPerTitleFrom, hmem]]
      refine List.nodup_cons.mpr ⟨?_, ih _⟩
      intro hc
      obtain ⟨r, hr, hrt⟩ := List.mem_map.mp hc
      exact specFirstPerTitleFrom_not_seen xs _ r hr (by simp [hrt])

lemma specFirstPerTitleFrom_sublist (l : List RetrievalResult) :
    ∀ seen : List String, (specFirstPerTitleFrom seen l).Sublist l := by
  induction l with
  | nil => intro seen; simp [specFirstPerTitleFrom]
  | cons x xs ih =>
    intro seen
    by_cases hmem : x.product_title ∈ seen
    · rw [show specFirstPerTitleFrom seen (x :: xs) =
            specFirstPerTitleFrom seen xs by simp [specFirstPerTitleFrom, hmem]]
      exact (ih seen).cons x
    · rw [show specFirstPerTitleFrom seen (x :: xs) =
            x :: specFirstPerTitleFrom (x.product_title :: seen) xs by
          simp [specFirstPerTitleFrom, hmem]]
      exact (ih _).cons₂ x

/-- When every title occurs at most `cap` times counting the accumulator, the
`_ensure_diversity` walk keeps everything. -/
lemma ensureDiversityAux_all_kept (cap : ℕ) (l : List RetrievalResult) :
    ∀ (seen : List String) (diverse : List RetrievalResult),
      (∀ t, countTitle diverse t + countTitle l t ≤ cap) →
      ensureDiversityAux cap seen diverse l = diverse ++ l := by
  induction l with
  | nil => intro seen diverse _; simp [ensureDiversityAux]
  | cons r rs ih =>
    intro seen diverse h
    have hcnt : countTitle diverse r.product_title < cap := by
      have h1 := h r.product_title
      rw [countTitle_cons] at h1
      simp at h1
      omega
    have hstep : ensureDiversityAux cap seen diverse (r :: rs) =
        ensureDiversityAux cap
          (if r.product_title ∈ seen then seen else r.product_title :: seen)
          (diverse ++ [r]) rs := by
      by_cases hmem : r.product_title ∈ seen
      · simpa [ensureDiversityAux, hmem, countTitle] using
          by simp [ensureDiversityAux, hmem, show
            (diverse.filter fun x => x.product_title == r.product_title).length < cap from hcnt]
      · simp [ensureDiversityAux, hmem]
    rw [hstep, ih _ (diverse ++ [r]) ?_]
    · simp
    · intro t
      have := h t
      rw [countTitle_append, countTitle_cons] at *
      by_cases ht : r.product_title == t <;> simp [countTitle, ht] at * <;> omega

/-- The `_ensure_diversity` walk never lets a title exceed the cap (for a
positive cap). -/
lemma ensureDiversityAux_count_le (cap : ℕ) (hcap : 1 ≤ cap) (l : List RetrievalResult) :
    ∀ (seen : List String) (diverse : List RetrievalResult),
      (∀ t, t ∉ seen → countTitle diverse t = 0) →
      (∀ t, countTitle diverse t ≤ cap) →
      ∀ t, countTitle (ensureDiversityAux cap seen diverse l) t ≤ cap := by
  induction l with
  | nil => intro seen diverse _ h2 t; simpa [ensureDiversityAux] using h2 t
  | cons r rs ih =>
    intro seen diverse h1 h2 t
    by_cases hmem : r.product_title ∈ seen
    · by_cases hlt :
        (diverse.filter fun x => x.product_title == r.product_title).length < cap
      · rw [show ensureDiversityAux cap seen diverse (r :: rs) =
              ensureDiversityAux cap seen (diverse ++ [r]) rs by
            simp [ensureDiversityAux, hmem, hlt]]
        refine ih seen (diverse ++ [r]) ?_ ?_ t
        · intro u hu
          rw [countTitle_append, countTitle_cons, countTitle_nil]
          have hne : (r.product_title == u) = false := by
            refine beq_eq_false_iff_ne.mpr fun hc => ?_
            exact hu (hc ▸ hmem)
          simp [hne, h1 u hu]
        · intro u
          rw [countTitle_append, countTitle_cons, countTitle_nil]
          by_cases hu : (r.product_title == u) = true
          · have hut : r.product_title = u := eq_of_beq hu
            have hlt' : countTitle diverse r.product_title < cap := hlt
            rw [hut] at hlt'
            simp [hu]
            omega
          · rw [Bool.not_eq_true] at hu
            simpa [hu] using h2 u
      · rw [show ensureDiversityAux cap seen diverse (r :: rs) =
              ensureDiversityAux cap seen diverse rs by
            simp [ensureDiversityAux, hmem, hlt]]
        exact ih seen diverse h1 h2 t
    · rw [show ensureDiversityAux cap seen diverse (r :: rs) =
            ensureDiversityAux cap (r.product_title :: seen) (diverse ++ [r]) rs by
          simp [ensureDiversityAux, hmem]]
      refine ih _ (diverse ++ [r]) ?_ ?_ t
      · intro u hu
        have hus : u ∉ seen := fun hc => hu (List.mem_cons_of_mem _ hc)
        have hune : (r.product_title == u) = false := by
          refine beq_eq_false_iff_ne.mpr fun hc => ?_
          exact hu (hc ▸ List.mem_cons_self _ _)
        rw [countTitle_append, countTitle_cons, countTitle_nil]
        simp [hune, h1 u hus]
      · intro u
        rw [countTitle_append, countTitle_cons, countTitle_nil]
        by_cases hu : (r.product_title == u) = true
        · have hut : r.product_title = u := eq_of_beq hu
          have h0 : countTitle diverse u = 0 := h1 u (hut ▸ hmem)
          simp [hu, h0]
          omega
        · rw [Bool.not_eq_true] at hu
          simpa [hu] using h2 u

/-! ## Concrete instances used by witnesses and counterexamples -/

/-- An analyzer collaborator for concrete runs: the deterministic heuristic. -/
def demoAnalyzer : String → QueryAnalysis :=
  fallback_analysis

/-- An index backend holding nothing: every query returns zero results. -/
def emptyStore : StoreFn := fun _ _ _ => []

/-- Metadata of a first demo product. -/
def demoMetaA : Metadata :=
  { url := "https://a", title := "Phone A", brand := "BrandA",
    price := some "100", currency := some "$", rating := some "4.5" }

/-- Metadata of a second demo product (no rating key). -/
def demoMetaB : Metadata :=
  { url := "https://b", title := "Phone B", brand := "BrandB",
    price := some "200", currency := some "$", rating := none }

/-- A demo retrieval result for product A. -/
def demoResultA : RetrievalResult :=
  { product_title := "Phone A", brand := "BrandA", content := "doc a",
    metadata := demoMetaA, relevance_score := 1 }

/-- A demo retrieval result for product B. -/
def demoResultB : RetrievalResult :=
  { product_title := "Phone B", brand := "BrandB", content := "doc b",
    metadata := demoMetaB, relevance_score := 1 }

/-- A non-empty comparative retrieval context. -/
def demoComparativeCtx : RetrievalContext :=
  { query := "which is better"
    query_analysis := fallback_analysis "which is better"
    results := [demoResultA, demoResultB]
    total_retrieved := 2 }

/-- A comparative context in which the same source key appears twice. -/
def demoDupCtx : RetrievalContext :=
  { query := "which is better"
    query_analysis := fallback_analysis "which is better"
    results := [demoResultA, demoResultA]
    total_retrieved := 2 }

/-- An index backend whose nearest entry sits at cosine distance `3/2`. -/
def bugStore : StoreFn := fun _ _ _ =>
  [{ raw_id := "1", document := "doc a", metadata := demoMetaA, distance := 3/2 }]

/-- An index backend honoring the url filter: it holds one document keyed
"https://a"; a url-filtered query matches exactly when the filter value is
that key. -/
def filterStore : StoreFn := fun _ _ f =>
  match f with
  | some (_, v) =>
    if v == "https://a" then
      [{ raw_id := "a", document := "doc a", metadata := demoMetaA, distance := 1/2 }]
    else []
  | none => [{ raw_id := "a", document := "doc a", metadata := demoMetaA, distance := 1/2 }]

/-- An index backend returning two chunks of the same product then another. -/
def dupStore : StoreFn := fun _ _ _ =>
  [{ raw_id := "1", document := "d1", metadata := demoMetaA, distance := 0 },
   { raw_id := "2", document := "d2", metadata := demoMetaA, distance := 0 },
   { raw_id := "3", document := "d3", metadata := demoMetaB, distance := 0 }]

/-! ## Claims -/

/-- **C1.** For every RetrievalResult produced by the Retriever (by `retrieve`
as well as by the targeted path of `retrieve_for_comparison`), the claim says
`relevance_score = clamp(1 - distance, 0, 1)`. The code violates this on the
targeted path: it sets `relevance_score = 1.0 - raw["distances"][0]` with no
clamping, so a match at cosine distance `3/2` receives the score `1 - 3/2 < 0`,
contradicting the claim and the source's own field documentation
(`relevance_score: float  # 0-1`). The `retrieve` path does clamp:
`max(0, 1 - distance)`, which equals `0` here. -/
theorem C1_targeted_relevance_unclamped :
    ((retrieve_for_comparison demoAnalyzer bugStore "q" (some ["https://a"])).results.map
        fun r => r.relevance_score) = [1 - 3/2] ∧
    (1 - 3/2 : ℚ) < 0 ∧
    ((retrieve demoAnalyzer bugStore "q" 10 0).results.map fun r => r.relevance_score) =
      [max 0 (1 - 3/2)] ∧
    max 0 (1 - 3/2 : ℚ) = 0 := by
  have hq : (fallback_analysis "q").is_comparative = false := by decide
  have hclamp : max 0 (1 - 3/2 : ℚ) = 0 := max_eq_left (by norm_num)
  refine ⟨?_, by norm_num, ?_, hclamp⟩
  · simp [retrieve_for_comparison, targetedLookup, bugStore, demoAnalyzer]
  · simp [retrieve, processResults, bugStore, demoAnalyzer, hq, hclamp,
      ensure_diversity, ensureDiversityAux]

/-- **C2.** Against an empty index (every store query returns zero results),
`compare` returns the fixed `ComparisonResult` with empty `products_compared`,
the fixed explanatory answer, no table and no citations; the result does not
depend on the generation outcomes (`genC`, `genA` are arbitrary), so no
generation call is observed, and the embedding is a total function (no
exception escapes). -/
theorem C2_empty_index_fixed_result (analyzer : String → QueryAnalysis) (store : StoreFn)
    (genC genA : Except String String) (q : String) (product_urls : Option (List String))
    (hempty : ∀ qq n f, store qq n f = []) :
    compare analyzer store genC genA q product_urls =
      { query := q
        answer := "I couldn't find any products to compare. Please add products first."
        products_compared := []
        comparison_table := none
        summary := some "No products found."
        citations := [] } := by
  have hret : ∀ mr minr, (retrieve analyzer store q mr minr).results = [] := by
    intro mr minr
    simp [retrieve, hempty, processResults]
  unfold compare
  by_cases hu : (product_urls.getD []).isEmpty
  · rw [if_pos hu]
    unfold compareOnContext
    rw [if_pos (by simp [hret])]
  · rw [if_neg hu]
    unfold retrieve_for_comparison
    rw [if_neg hu]
    have hfm : (product_urls.getD []).filterMap (targetedLookup store q) = [] := by
      refine List.filterMap_eq_nil_iff.mpr fun u _ => ?_
      simp [targetedLookup, hempty]
    unfold compareOnContext
    rw [if_pos (by simp [hfm])]

/-- Witness for C2 at a concrete empty store. -/
theorem C2_empty_index_fixed_result_witness :
    compare demoAnalyzer emptyStore (.ok "x") (.ok "y") "compare phones" none =
      { query := "compare phones"
        answer := "I couldn't find any products to compare. Please add products first."
        products_compared := []
        comparison_table := none
        summary := some "No products found."
        citations := [] } :=
  C2_empty_index_fixed_result demoAnalyzer emptyStore (.ok "x") (.ok "y") "compare phones"
    none (fun _ _ _ => rfl)

/-- **C5.** When the generation-backed classifier errors, `analyze` returns the
deterministic heuristic result: `is_comparative` is true iff the lower-cased
query contains one of the nine fixed comparative keywords; `query_type` is
"comparison" if comparative, else "specific" if the query contains one of
{"tell me", "what is", "how"}, else "general"; `aspects` are exactly the
taxonomy entries whose keyword list intersects the query; `entities` is empty;
`expanded_query` equals the original query; the error is never propagated
(`analyze` is total and equals the fallback on every error). -/
theorem C5_fallback_on_generation_error (q e : String) :
    analyze q (.error e) = fallback_analysis q ∧
    ((analyze q (.error e)).is_comparative = true ↔
      ∃ kw ∈ comparative_keywords, strContains (strLower q) kw = true) ∧
    ((analyze q (.error e)).query_type =
      if (analyze q (.error e)).is_comparative then "comparison"
      else if ["tell me", "what is", "how"].any (fun w => strContains (strLower q) w) then
        "specific"
      else "general") ∧
    (∀ a, a ∈ (analyze q (.error e)).aspects ↔
      ∃ kws, (a, kws) ∈ aspect_keywords ∧ ∃ kw ∈ kws, strContains (strLower q) kw = true) ∧
    (analyze q (.error e)).entities = [] ∧
    (analyze q (.error e)).expanded_query = q := by
  refine ⟨rfl, ?_, rfl, ?_, rfl, rfl⟩
  · show (fallback_analysis q).is_comparative = true ↔ _
    simp [fallback_analysis, List.any_eq_true]
  · intro a
    show a ∈ (fallback_analysis q).aspects ↔ _
    simp only [fallback_analysis, List.mem_map, List.mem_filter, List.any_eq_true]
    constructor
    · rintro ⟨⟨a', kws⟩, ⟨hmem, hkw⟩, rfl⟩
      exact ⟨kws, hmem, hkw⟩
    · rintro ⟨kws, hmem, hkw⟩
      exact ⟨(a, kws), ⟨hmem, hkw⟩, rfl⟩

/-- **C6.** For a non-empty context, if the generation service fails, the
synthesizer returns a fully-formed `ComparisonResult` whose answer is the fixed
error string carrying the failure reason and whose comparison table is absent;
the exception is not re-thrown (the result is an ordinary value), on the
comparative as well as the direct-answer path. -/
theorem C6_generation_failure_degraded (q e : String) (genC genA : Except String String)
    (ctx : RetrievalContext) (hne : ctx.results ≠ []) :
    (ctx.query_analysis.is_comparative = true →
      compareOnContext (.error e) genA q ctx =
        { query := q
          answer := "Error generating comparison: " ++ e
          products_compared := ctx.get_all_products
          comparison_table := none
          summary := none
          citations := [] }) ∧
    (ctx.query_analysis.is_comparative = false →
      compareOnContext genC (.error e) q ctx =
        { query := q
          answer := "Error generating answer: " ++ e
          products_compared := ctx.get_all_products
          comparison_table := none
          summary := none
          citations := [] }) := by
  have hempty : ctx.results.isEmpty = false := by
    simpa [List.isEmpty_eq_false] using hne
  constructor
  · intro hcomp
    unfold compareOnContext
    rw [if_neg (by simp [hempty]), if_pos (by simp [hcomp])]
    rfl
  · intro hcomp
    unfold compareOnContext
    rw [if_neg (by simp [hempty]), if_neg (by simp [hcomp])]
    rfl

/-- Witness for C6 at a concrete non-empty comparative context. -/
theorem C6_generation_failure_degraded_witness :
    compareOnContext (.error "boom") (.ok "y") "which is better" demoComparativeCtx =
      { query := "which is better"
        answer := "Error generating comparison: " ++ "boom"
        products_compared := demoComparativeCtx.get_all_products
        comparison_table := none
        summary := none
        citations := [] } :=
  (C6_generation_failure_degraded "which is better" "boom" (.error "boom") (.ok "y")
      demoComparativeCtx (by decide)).1 (by decide)

/-- **C7 (counterexample).** The claim as stated is false: on the comparative
path with a non-empty context, when the generation call fails, the returned
`citations` list is empty rather than the ordered list of the results' source
keys. -/
theorem C7_citations_counterexample :
    (compareOnContext (.error "boom") (.ok "ans") "which is better"
        demoComparativeCtx).citations ≠
      demoComparativeCtx.results.map fun r => r.metadata.url := by decide

/-- **C7 (amended).** For every compare call with a non-empty context, on
either path, *when the generation call succeeds* the citations list is the
ordered list of every retrieved result's source key, one entry per result
(not deduplicated); on generation failure the citations list is empty. -/
theorem C7_citations_per_result (q ans e : String) (g : Except String String)
    (ctx : RetrievalContext) (hne : ctx.results ≠ []) :
    (ctx.query_analysis.is_comparative = true →
      (compareOnContext (.ok ans) g q ctx).citations =
        ctx.results.map fun r => r.metadata.url) ∧
    (ctx.query_analysis.is_comparative = false →
      (compareOnContext g (.ok ans) q ctx).citations =
        ctx.results.map fun r => r.metadata.url) ∧
    (ctx.query_analysis.is_comparative = true →
      (compareOnContext (.error e) g q ctx).citations = []) ∧
    (ctx.query_analysis.is_comparative = false →
      (compareOnContext g (.error e) q ctx).citations = []) := by
  have hempty : ctx.results.isEmpty = false := by
    simpa [List.isEmpty_eq_false] using hne
  refine ⟨fun hcomp => ?_, fun hcomp => ?_, fun hcomp => ?_, fun hcomp => ?_⟩ <;>
    · unfold compareOnContext
      simp [hempty, hcomp, generate_comparison, generate_answer]

/-- Witness for C7 (amended): with a duplicated source key, the citation list
keeps both occurrences. -/
theorem C7_citations_per_result_witness :
    (compareOnContext (.ok "ans") (.ok "x") "which is better" demoDupCtx).citations =
      ["https://a", "https://a"] :=
  ((C7_citations_per_result "which is better" "ans" "err" (.ok "x") demoDupCtx
      (by decide)).1 (by decide)).trans (by decide)

/-! ## Helper lemmas on the comparison-table dict -/

lemma mem_dictInsert (d : Table) (k : String) (v : TableRow) :
    ∀ x ∈ dictInsert d k v, x = (k, v) ∨ x ∈ d := by
  intro x hx
  unfold dictInsert at hx
  by_cases hany : (d.any fun p => p.1 == k) = true
  · rw [if_pos hany] at hx
    obtain ⟨p, hp, hfp⟩ := List.mem_map.mp hx
    by_cases hpk : (p.1 == k) = true
    · left
      rw [← hfp]
      simp [hpk]
    · right
      rw [← hfp]
      simpa [hpk] using hp
  · rw [if_neg hany] at hx
    rcases List.mem_append.mp hx with h | h
    · right
      exact h
    · left
      simpa using h

lemma dictInsert_mem_self (d : Table) (k : String) (v : TableRow) :
    ∃ row, (k, row) ∈ dictInsert d k v := by
  unfold dictInsert
  by_cases hany : (d.any fun p => p.1 == k) = true
  · rw [if_pos hany]
    obtain ⟨p, hp, hpk⟩ := List.any_eq_true.mp hany
    exact ⟨v, List.mem_map.mpr ⟨p, hp, by simp [hpk]⟩⟩
  · rw [if_neg hany]
    exact ⟨v, List.mem_append_right _ (by simp)⟩

lemma dictInsert_mem_keep (d : Table) (k : String) (v : TableRow) (x : String × TableRow)
    (hx : x ∈ d) : ∃ row, (x.1, row) ∈ dictInsert d k v := by
  by_cases hxk : x.1 = k
  · rw [hxk]
    exact dictInsert_mem_self d k v
  · unfold dictInsert
    by_cases hany : (d.any fun p => p.1 == k) = true
    · rw [if_pos hany]
      refine ⟨x.2, List.mem_map.mpr ⟨x, hx, ?_⟩⟩
      simp [beq_eq_false_iff_ne.mpr hxk]
    · rw [if_neg hany]
      exact ⟨x.2, List.mem_append_left _ (by simpa using hx)⟩

lemma rowOf_eq_none_iff (r : RetrievalResult) :
    rowOf r = none ↔ r.metadata.currency = none ∨ r.metadata.price = none := by
  unfold rowOf
  cases r.metadata.currency <;> cases r.metadata.price <;> simp

lemma rowOf_some_fields (r : RetrievalResult) (row : TableRow) (h : rowOf r = some row) :
    row.brand = r.metadata.brand ∧
    (∃ c p, r.metadata.currency = some c ∧ r.metadata.price = some p ∧
      row.price = c ++ p) ∧
    row.rating = r.metadata.rating.getD "N/A" := by
  unfold rowOf at h
  cases hc : r.metadata.currency with
  | none => simp [hc] at h
  | some c =>
    cases hp : r.metadata.price with
    | none => simp [hc, hp] at h
    | some p =>
      rw [hc, hp] at h
      obtain rfl := Option.some.inj h
      exact ⟨rfl, ⟨c, p, rfl, rfl, rfl⟩, rfl⟩

lemma buildTable_some (rs : List RetrievalResult) :
    ∀ acc : Table, (∀ r ∈ rs, rowOf r ≠ none) → ∃ t, buildTable rs acc = some t := by
  induction rs with
  | nil => intro acc _; exact ⟨acc, rfl⟩
  | cons r rs ih =>
    intro acc hall
    cases hrow : rowOf r with
    | none => exact absurd hrow (hall r (List.mem_cons_self _ _))
    | some row =>
      obtain ⟨t, ht⟩ :=
        ih (dictInsert acc r.product_title row) fun x hx => hall x (List.mem_cons_of_mem _ hx)
      exact ⟨t, by simp [buildTable, hrow, ht]⟩

lemma buildTable_none (rs : List RetrievalResult) :
    ∀ acc : Table, (∃ r ∈ rs, rowOf r = none) → buildTable rs acc = none := by
  induction rs with
  | nil => intro acc h; simp at h
  | cons r rs ih =>
    rintro acc ⟨r', hr', hrow'⟩
    cases hrow : rowOf r with
    | none => simp [buildTable, hrow]
    | some row =>
      have hmem : r' ∈ rs := by
        rcases List.mem_cons.mp hr' with rfl | h
        · rw [hrow] at hrow'; cases hrow'
        · exact h
      simp [buildTable, hrow, ih _ ⟨r', hmem, hrow'⟩]

lemma buildTable_mem (rs : List RetrievalResult) :
    ∀ (acc t : Table), buildTable rs acc = some t →
      ∀ x ∈ t, x ∈ acc ∨ ∃ r ∈ rs, r.product_title = x.1 ∧ rowOf r = some x.2 := by
  induction rs with
  | nil =>
    intro acc t h x hx
    obtain rfl : acc = t := by simpa [buildTable] using h
    exact Or.inl hx
  | cons r rs ih =>
    intro acc t h x hx
    cases hrow : rowOf r with
    | none => simp [buildTable, hrow] at h
    | some row =>
      rw [show buildTable (r :: rs) acc = buildTable rs (dictInsert acc r.product_title row)
          from by simp [buildTable, hrow]] at h
      rcases ih _ _ h x hx with hacc | ⟨r', hr', ht', hrow'⟩
      · rcases mem_dictInsert acc r.product_title row x hacc with rfl | hold
        · exact Or.inr ⟨r, List.mem_cons_self _ _, rfl, hrow⟩
        · exact Or.inl hold
      · exact Or.inr ⟨r', List.mem_cons_of_mem _ hr', ht', hrow'⟩

lemma buildTable_covers (rs : List RetrievalResult) :
    ∀ (acc t : Table), buildTable rs acc = some t →
      (∀ x ∈ acc, ∃ row, (x.1, row) ∈ t) ∧
      (∀ r ∈ rs, ∃ row, (r.product_title, row) ∈ t) := by
  induction rs with
  | nil =>
    intro acc t h
    obtain rfl : acc = t := by simpa [buildTable] using h
    exact ⟨fun x hx => ⟨x.2, by simpa using hx⟩, by simp⟩
  | cons r rs ih =>
    intro acc t h
    cases hrow : rowOf r with
    | none => simp [buildTable, hrow] at h
    | some row =>
      rw [show buildTable (r :: rs) acc = buildTable rs (dictInsert acc r.product_title row)
          from by simp [buildTable, hrow]] at h
      obtain ⟨hacc, hrs⟩ := ih _ _ h
      refine ⟨fun x hx => ?_, fun r' hr' => ?_⟩
      · obtain ⟨row', hrow'⟩ := dictInsert_mem_keep acc r.product_title row x hx
        exact hacc (x.1, row') hrow'
      · rcases List.mem_cons.mp hr' with rfl | hr'
        · obtain ⟨row', hrow'⟩ := dictInsert_mem_self acc r'.product_title row
          exact hacc (r'.product_title, row') hrow'
        · exact hrs r' hr'

/-- **C8.** Table extraction returns no table when the context has fewer than
2 results; it returns none on any missing metadata key among the top
`min(5, n)` results; otherwise it builds, from the top `min(5, n)` results by
rank, a mapping carrying, for each covered result's product title, a row
`{brand, currency ++ price, rating}` taken directly from that result's
metadata (and every table entry traces back to such a result); no exception
escapes (the embedding is total, errors surface as `none`). -/
theorem C8_table_extraction (ans : String) (ctx : RetrievalContext) :
    (ctx.results.length < 2 → extract_comparison_table ans ctx = none) ∧
    ((∃ r ∈ ctx.results.take 5, r.metadata.currency = none ∨ r.metadata.price = none) →
      extract_comparison_table ans ctx = none) ∧
    (2 ≤ ctx.results.length →
      (∀ r ∈ ctx.results.take 5, r.metadata.currency ≠ none ∧ r.metadata.price ≠ none) →
      ∃ t, extract_comparison_table ans ctx = some t ∧
        (∀ r ∈ ctx.results.take 5, ∃ row, (r.product_title, row) ∈ t) ∧
        (∀ k row, (k, row) ∈ t →
          ∃ r ∈ ctx.results.take 5, r.product_title = k ∧
            row.brand = r.metadata.brand ∧
            (∃ c p, r.metadata.currency = some c ∧ r.metadata.price = some p ∧
              row.price = c ++ p) ∧
            row.rating = r.metadata.rating.getD "N/A")) := by
  refine ⟨fun hlt => ?_, fun hex => ?_, fun hge hall => ?_⟩
  · simp [extract_comparison_table, hlt]
  · by_cases hlt : ctx.results.length < 2
    · simp [extract_comparison_table, hlt]
    · obtain ⟨r, hr, hcur⟩ := hex
      have hnone : rowOf r = none := (rowOf_eq_none_iff r).mpr hcur
      simp [extract_comparison_table, hlt, buildTable_none _ _ ⟨r, hr, hnone⟩]
  · have hall' : ∀ r ∈ ctx.results.take 5, rowOf r ≠ none := by
      intro r hr hno
      rcases (rowOf_eq_none_iff r).mp hno with h | h
      · exact (hall r hr).1 h
      · exact (hall r hr).2 h
    obtain ⟨t, ht⟩ := buildTable_some _ [] hall'
    refine ⟨t, ?_, ?_, ?_⟩
    · rw [extract_comparison_table, if_neg (Nat.not_lt.mpr hge)]
      exact ht
    · exact (buildTable_covers _ [] t ht).2
    · intro k row hkt
      rcases buildTable_mem _ [] t ht (k, row) hkt with h | ⟨r, hr, hts, hrow⟩
      · simp at h
      · exact ⟨r, hr, hts, rowOf_some_fields r row hrow⟩

/-- **C3.** Diversity filtering with the default cap `max_per_product = 1`
returns a list in which no product title appears twice, keeps exactly the
first entry for each title (the spec-side walk `specFirstPerTitle`), and
preserves the original rank order among kept entries (sublist); and for a
comparative query, `retrieve` returns exactly that filtering of the processed
candidates. -/
theorem C3_diversity_default_cap (analyzer : String → QueryAnalysis) (store : StoreFn)
    (q : String) (mr : ℕ) (minr : ℚ)
    (hcomp : (analyzer q).is_comparative = true) :
    (∀ l, ensure_diversity l 1 = specFirstPerTitle l) ∧
    (∀ l, ((ensure_diversity l 1).map fun r => r.product_title).Nodup) ∧
    (∀ l, (ensure_diversity l 1).Sublist l) ∧
    (retrieve analyzer store q mr minr).results =
      specFirstPerTitle (processResults minr (store (analyzer q).expanded_query mr none)) ∧
    ((retrieve analyzer store q mr minr).results.map fun r => r.product_title).Nodup := by
  have heq : ∀ l, ensure_diversity l 1 = specFirstPerTitle l := ensure_diversity_one_eq_spec
  have hnd : ∀ l : List RetrievalResult,
      ((ensure_diversity l 1).map fun r => r.product_title).Nodup := by
    intro l
    rw [heq]
    exact specFirstPerTitleFrom_nodup l []
  have hsub : ∀ l : List RetrievalResult, (ensure_diversity l 1).Sublist l := by
    intro l
    rw [heq]
    exact specFirstPerTitleFrom_sublist l []
  have hres : (retrieve analyzer store q mr minr).results =
      specFirstPerTitle (processResults minr (store (analyzer q).expanded_query mr none)) := by
    by_cases hlen :
      0 < (processResults minr (store (analyzer q).expanded_query mr none)).length
    · simp only [retrieve]
      rw [if_pos (by exact ⟨by simp [hcomp], hlen⟩)]
      exact heq _
    · have hnil : processResults minr (store (analyzer q).expanded_query mr none) = [] :=
        List.eq_nil_of_length_eq_zero (Nat.eq_zero_of_not_pos hlen)
      simp [retrieve, hnil, specFirstPerTitle, specFirstPerTitleFrom]
  refine ⟨heq, hnd, hsub, hres, ?_⟩
  rw [hres]
  exact specFirstPerTitleFrom_nodup _ []

/-- Witness for C3: a comparative query over a store that returns the same
product twice keeps one entry per title, in rank order. -/
theorem C3_diversity_default_cap_witness :
    ((retrieve demoAnalyzer dupStore "which is better" 10 0).results.map
        fun r => r.product_title).Nodup ∧
    ensure_diversity [demoResultA, demoResultA, demoResultB] 1 =
      [demoResultA, demoResultB] := by
  constructor
  · exact (C3_diversity_default_cap demoAnalyzer dupStore "which is better" 10 0
      (by decide)).2.2.2.2
  · rw [(C3_diversity_default_cap demoAnalyzer dupStore "which is better" 10 0
      (by decide)).1]
    simp [specFirstPerTitle, specFirstPerTitleFrom, demoResultA, demoResultB]

/-- **C10.** Diversity filtering is idempotent: for every result list and
every `max_per_product ≥ 1`, applying `_ensure_diversity` to its own output
returns that output unchanged. -/
theorem C10_diversity_idempotent (l : List RetrievalResult) (cap : ℕ) (hcap : 1 ≤ cap) :
    ensure_diversity (ensure_diversity l cap) cap = ensure_diversity l cap := by
  have hbound : ∀ t, countTitle (ensure_diversity l cap) t ≤ cap :=
    ensureDiversityAux_count_le cap hcap l [] [] (fun _ _ => rfl)
      (fun t => by simp [countTitle])
  have hfill := ensureDiversityAux_all_kept cap (ensure_diversity l cap) [] []
    (fun t => by simpa [countTitle_nil] using hbound t)
  simpa [ensure_diversity] using hfill

/-- Witness for C10 at a concrete list and the default cap. -/
theorem C10_diversity_idempotent_witness :
    ensure_diversity (ensure_diversity [demoResultA, demoResultA, demoResultB] 1) 1 =
      ensure_diversity [demoResultA, demoResultA, demoResultB] 1 :=
  C10_diversity_idempotent [demoResultA, demoResultA, demoResultB] 1 (by decide)

/-- When the store honors the exact source-key filter, a targeted lookup can
only return a result carrying the looked-up key. -/
lemma targetedLookup_url (store : StoreFn) (q u : String)
    (hfilter : ∀ qq n v, ∀ e ∈ store qq n (some ("url", v)), e.metadata.url = v)
    {r : RetrievalResult} (h : targetedLookup store q u = some r) :
    r.metadata.url = u := by
  unfold targetedLookup at h
  cases hstore : store q 1 (some ("url", u)) with
  | nil => rw [hstore] at h; cases h
  | cons e es =>
    rw [hstore] at h
    have he : e ∈ store q 1 (some ("url", u)) := hstore ▸ List.mem_cons_self e es
    cases h
    exact hfilter q 1 u e he

/-- Source keys of kept lookups form an order-preserving subsequence of the
looked-up keys. -/
lemma filterMap_url_sublist (f : String → Option RetrievalResult)
    (hf : ∀ u r, f u = some r → r.metadata.url = u) (keys : List String) :
    ((keys.filterMap f).map fun r => r.metadata.url).Sublist keys := by
  induction keys with
  | nil => simp
  | cons u ks ih =>
    cases hu : f u with
    | none => simpa [List.filterMap_cons, hu] using ih.cons u
    | some r =>
      have hr : r.metadata.url = u := hf u r hu
      simpa [List.filterMap_cons, hu, hr] using ih.cons₂ u

/-- **C4.** With no keys (Python `None` or the falsy `[]`),
`retrieve_for_comparison` delegates to `retrieve(query, max_results=20)`. With
keys, it is one targeted lookup per key in input order (`filterMap` of the
k=1, url-filtered lookup), it skips keys with no match, computes the analysis
once for the whole query, and — whenever the store honors the exact
source-key filter — returns results whose source keys form a subsequence of
the keys in the same order, with at most `len(keys)` entries. -/
theorem C4_targeted_retrieval (analyzer : String → QueryAnalysis) (store : StoreFn)
    (q : String) (keys : List String)
    (hfilter : ∀ qq n v, ∀ e ∈ store qq n (some ("url", v)), e.metadata.url = v) :
    retrieve_for_comparison analyzer store q none = retrieve analyzer store q 20 0 ∧
    retrieve_for_comparison analyzer store q (some []) = retrieve analyzer store q 20 0 ∧
    (keys ≠ [] →
      ((retrieve_for_comparison analyzer store q (some keys)).results.map
          fun r => r.metadata.url).Sublist keys ∧
      (retrieve_for_comparison analyzer store q (some keys)).results.length ≤
        keys.length ∧
      (retrieve_for_comparison analyzer store q (some keys)).query_analysis =
        analyzer q ∧
      (retrieve_for_comparison analyzer store q (some keys)).results =
        keys.filterMap (targetedLookup store q) ∧
      (∀ u ∈ keys, store q 1 (some ("url", u)) = [] →
        ∀ r ∈ (retrieve_for_comparison analyzer store q (some keys)).results,
          r.metadata.url ≠ u)) := by
  have hf : ∀ u r, targetedLookup store q u = some r → r.metadata.url = u :=
    fun u r h => targetedLookup_url store q u hfilter h
  refine ⟨rfl, rfl, fun hne => ?_⟩
  have hkeys : keys.isEmpty = false := by simpa [List.isEmpty_eq_false] using hne
  have hres : (retrieve_for_comparison analyzer store q (some keys)).results =
      keys.filterMap (targetedLookup store q) := by
    simp [retrieve_for_comparison, hkeys]
  refine ⟨?_, ?_, ?_, hres, ?_⟩
  · rw [hres]
    exact filterMap_url_sublist _ hf keys
  · rw [hres]
    exact List.length_filterMap_le _ _
  · simp [retrieve_for_comparison, hkeys]
  · intro u hu hstore r hr hurl
    rw [hres] at hr
    obtain ⟨u', hu', hfu⟩ := List.mem_filterMap.mp hr
    have huu : u' = u := (hf u' r hfu).symm.trans hurl
    subst huu
    simp [targetedLookup, hstore] at hfu

/-- Witness for C4: two keys, one matched and one with no match — the matched
key's result is kept, the other key is skipped without padding. -/
theorem C4_targeted_retrieval_witness :
    ((retrieve_for_comparison demoAnalyzer filterStore "q"
        (some ["https://a", "https://b"])).results.map
        fun r => r.metadata.url).Sublist ["https://a", "https://b"] ∧
    (retrieve_for_comparison demoAnalyzer filterStore "q"
        (some ["https://a", "https://b"])).results.length ≤ 2 ∧
    retrieve_for_comparison demoAnalyzer filterStore "q" none =
      retrieve demoAnalyzer filterStore "q" 20 0 := by
  have hfilter : ∀ qq n v, ∀ e ∈ filterStore qq n (some ("url", v)),
      e.metadata.url = v := by
    intro qq n v e he
    by_cases hv : (v == "https://a") = true
    · have hva : v = "https://a" := eq_of_beq hv
      simp only [filterStore, hv, if_true, List.mem_singleton] at he
      rw [he]
      simp [demoMetaA, hva]
    · rw [Bool.not_eq_true] at hv
      simp [filterStore, hv] at he
  have h := C4_targeted_retrieval demoAnalyzer filterStore "q"
    ["https://a", "https://b"] hfilter
  exact ⟨(h.2.2 (by decide)).1, (h.2.2 (by decide)).2.1, h.1⟩

/-- **C9.** When the generation service's text parses as a JSON object that
lacks some of the expected fields, `analyze` does not engage the heuristic
fallback: each missing field is filled with its `data.get` default —
`query_type` "general", `aspects` `[]`, `entities` `[]`, `is_comparative`
false, `expanded_query` the original query. The last two conjuncts exhibit the
contrast with the fallback: on a comparative query with an all-missing JSON
object, the parsed path answers `is_comparative = false` while the heuristic
would answer `true`. -/
theorem C9_parsed_json_defaults (q : String) (d : AnalysisJson) :
    (analyze q (.ok d)).original_query = q ∧
    (d.query_type = none → (analyze q (.ok d)).query_type = "general") ∧
    (d.aspects = none → (analyze q (.ok d)).aspects = []) ∧
    (d.entities = none → (analyze q (.ok d)).entities = []) ∧
    (d.is_comparative = none → (analyze q (.ok d)).is_comparative = false) ∧
    (d.expanded_query = none → (analyze q (.ok d)).expanded_query = q) ∧
    (analyze "compare a or b" (.ok ⟨none, none, none, none, none⟩)).is_comparative = false ∧
    (fallback_analysis "compare a or b").is_comparative = true := by
  refine ⟨rfl, fun h => ?_, fun h => ?_, fun h => ?_, fun h => ?_, fun h => ?_, rfl, by decide⟩
    <;> simp [analyze, h]

end CompareRAG
